import Mathlib

/-!
Verification of the Mandelbrot fractal renderer (Nalowo/MandelbrotFractal).

The C++ sources are shallowly embedded: `double` values are modelled as exact
rationals (`ℚ`), unsigned machine integers as `Nat` (pixel coordinates, strip
heights and iteration counts stay far below 2^32 on every path on which the
source arithmetic is used unwrapped; the single subtraction that can wrap —
`end_r - start_r` in `ComputePixelMatrixForRegion`, mandelbrot_sender.hpp:17 —
is modelled explicitly, see that definition), `int` as `Int`, and the stdexec
sender protocol's three-way completion as explicit `Except` results / pure
state transformers.
-/

namespace mandelbrot

/-- Modelled from the spec: `mandelbrot::Complex` (a pair of doubles) lives in
the missing `types.hpp`; here a pair of exact rationals. -/
structure Complex where
  re : ℚ
  im : ℚ
deriving DecidableEq, Repr

/-- Modelled from the spec (§3): the `ViewPort` struct of the missing
`types.hpp` — `{x_min, x_max, y_min, y_max}` doubles. -/
structure ViewPort where
  x_min : ℚ
  x_max : ℚ
  y_min : ℚ
  y_max : ℚ
deriving DecidableEq, Repr

/-- Modelled from the spec (§3): derived viewport width `x_max - x_min`. -/
def ViewPort.width (v : ViewPort) : ℚ := v.x_max - v.x_min

/-- Modelled from the spec (§3): derived viewport height `y_max - y_min`. -/
def ViewPort.height (v : ViewPort) : ℚ := v.y_max - v.y_min

/-- Modelled from the spec (§4.1): `Pixel2DToComplex` lives in the missing
`mandelbrot_fractal_utils.hpp`; linear interpolation
`real = x_min + col/screen_w * width()`, `imag = y_min + row/screen_h * height()`. -/
def Pixel2DToComplex (col row : ℕ) (v : ViewPort) (screen_w screen_h : ℕ) : Complex :=
  ⟨v.x_min + ((col : ℚ) / (screen_w : ℚ)) * v.width,
   v.y_min + ((row : ℚ) / (screen_h : ℚ)) * v.height⟩

/-- Modelled from the spec (§4.2): the escape-time loop body of
`CalculateIterationsForPoint` (missing `mandelbrot_fractal_utils.hpp`).
Iterates `z = z^2 + c` while the squared magnitude stays within
`escape_radius^2` and fuel remains, counting the iterations performed. -/
def iterLoop (c : Complex) (r2 : ℚ) : ℕ → Complex → ℕ → ℕ
  | 0, _, count => count
  | fuel + 1, z, count =>
    if z.re * z.re + z.im * z.im > r2 then count
    else iterLoop c r2 fuel ⟨z.re * z.re - z.im * z.im + c.re, 2 * z.re * z.im + c.im⟩ (count + 1)

/-- Modelled from the spec (§4.2): `CalculateIterationsForPoint` (missing
`mandelbrot_fractal_utils.hpp`) — iterate `z = z^2 + c` from `z = 0`; return
the iteration index at which `|z| > escape_radius` (compared via squared
magnitudes), or `max_iterations` if the bound is never exceeded. -/
def CalculateIterationsForPoint (c : Complex) (max_iterations : ℕ) (escape_radius : ℚ) : ℕ :=
  iterLoop c (escape_radius * escape_radius) max_iterations ⟨0, 0⟩ 0

/-- Modelled from the spec (§3): an RGB triple (missing `types.hpp`). -/
structure RgbColor where
  r : ℕ
  g : ℕ
  b : ℕ
deriving DecidableEq, Repr

end mandelbrot

/-- Modelled from the spec (§3): `RenderSettings` of the missing `types.hpp`
— `{width, height, max_iterations, escape_radius}`. -/
structure RenderSettings where
  width : ℕ
  height : ℕ
  max_iterations : ℕ
  escape_radius : ℚ
deriving DecidableEq, Repr

/-- `PixelRegion` (missing `types.hpp`, fields evident from the src call
sites): half-open row/col ranges. -/
structure PixelRegion where
  start_row : ℕ
  end_row : ℕ
  start_col : ℕ
  end_col : ℕ
deriving DecidableEq, Repr

/-- `PixelMatrix` — 2D grid of iteration counts (missing `types.hpp`). -/
def PixelMatrix : Type := List (List ℕ)

/-- Modelled from the spec (§3): `RenderResult` of the missing `types.hpp`. -/
structure RenderResult where
  viewport : mandelbrot.ViewPort
  settings : RenderSettings
  pixel_data : List (List ℕ)
  color_data : List (List mandelbrot.RgbColor)
deriving DecidableEq, Repr

/-- Modelled from the spec (§3): `AppState` of the missing `types.hpp`. -/
structure AppState where
  viewport : mandelbrot.ViewPort
  need_rerender : Bool
  left_mouse_pressed : Bool
  right_mouse_pressed : Bool
  should_exit : Bool
deriving DecidableEq, Repr

/-- Height of the `i`-th strip in `MandelbrotRenderer::RenderAsync`
(mandelbrot_renderer.hpp:40): `strip_height + (i < remainder ? 1 : 0)` with
`strip_height = height / N`, `remainder = height % N`. -/
def stripLen (height N i : ℕ) : ℕ :=
  height / N + (if i < height % N then 1 else 0)

/-- The `current_row` accumulator of the partition loop in
`MandelbrotRenderer::RenderAsync` (mandelbrot_renderer.hpp:37-43) before
iteration `i`: starts at 0 and adds each strip's height in turn. -/
def currentRow (height N : ℕ) : ℕ → ℕ
  | 0 => 0
  | i + 1 => currentRow height N i + stripLen height N i

/-- The region array built by the partition loop of
`MandelbrotRenderer::RenderAsync` (mandelbrot_renderer.hpp:34-43):
`regions[i] = {current_row, current_row + height_i, 0, width}`. -/
def partitionRegions (height width N : ℕ) : List PixelRegion :=
  (List.range N).map fun i =>
    ⟨currentRow height N i, currentRow height N i + stripLen height N i, 0, width⟩

/-- The `i`-th region of the partition, written out. -/
def partitionRegion (height width N i : ℕ) : PixelRegion :=
  ⟨currentRow height N i, currentRow height N i + stripLen height N i, 0, width⟩

/-- Failure outcome of a render computation: the senders' `catch (...)`
blocks treat any raised exception uniformly, so one abstract error value
suffices. -/
inductive RenderError where
  | exn
deriving DecidableEq, Repr

/-- The row-filling loop of `ComputePixelMatrixForRegion`
(mandelbrot_sender.hpp:19-26): `n` rows starting at screen row `start_r`,
each of `screen_w` iteration counts; the column index is the loop counter `c`
running over `[0, screen_w)`. -/
def computeRegionRows (viewport : mandelbrot.ViewPort) (settings : RenderSettings)
    (start_r n : ℕ) : List (List ℕ) :=
  (List.range n).map fun i =>
    (List.range settings.width).map fun c =>
      mandelbrot.CalculateIterationsForPoint
        (mandelbrot.Pixel2DToComplex c (start_r + i) viewport settings.width settings.height)
        settings.max_iterations settings.escape_radius

/-- `ComputePixelMatrixForRegion` (mandelbrot_sender.hpp:8-28): clamps both
row bounds to the screen height, resizes the result to `end_r - start_r` rows
and fills rows `[start_r, end_r)`. All quantities are `uint32`: when
`end_r < start_r` the unsigned difference `end_r - start_r` at
mandelbrot_sender.hpp:17 wraps around to nearly `2^32`, and the `resize` to
that many rows fails to allocate; the exception surfaces through the `catch`
in `MandelbrotOperationState::start` (mandelbrot_sender.hpp:37-43) as the
task's error outcome, modelled here as `Except.error`. When
`start_r ≤ end_r` no wrap occurs and the filled rows are returned. The
region's `start_col`/`end_col` are never read. -/
def ComputePixelMatrixForRegion (viewport : mandelbrot.ViewPort) (settings : RenderSettings)
    (region : PixelRegion) : Except RenderError (List (List ℕ)) :=
  let screen_h := settings.height
  let start_r := min region.start_row screen_h
  let end_r := min region.end_row screen_h
  if end_r < start_r then Except.error RenderError.exn
  else Except.ok (computeRegionRows viewport settings start_r (end_r - start_r))

/-- The iteration count `RenderAsync`'s pipeline computes for screen pixel
`(x, y)` — the body of the inner loop of `ComputePixelMatrixForRegion`
expressed directly on frame coordinates. -/
def directPixel (viewport : mandelbrot.ViewPort) (settings : RenderSettings) (y x : ℕ) : ℕ :=
  mandelbrot.CalculateIterationsForPoint
    (mandelbrot.Pixel2DToComplex x y viewport settings.width settings.height)
    settings.max_iterations settings.escape_radius

/-- The merge loop of `RenderAsync`'s `then`-continuation
(mandelbrot_renderer.hpp:60-71) for one region: it writes
`buf[reg.start_row + py][reg.start_col + px] := mat[py][px]` for every
`py < mat.size()` and `px < mat[py].size()`. Each destination cell is written
at most once per call, so the loop is exactly this case split on whether
`(y, x)` lies in the written rectangle. The buffer is modelled as a function
`ℕ → ℕ → ℕ`. -/
def writeMatrix (buf : ℕ → ℕ → ℕ) (reg : PixelRegion) (mat : List (List ℕ)) : ℕ → ℕ → ℕ :=
  fun y x =>
    let row := (mat.get? (y - reg.start_row)).getD []
    if reg.start_row ≤ y ∧ y - reg.start_row < mat.length ∧
        reg.start_col ≤ x ∧ x - reg.start_col < row.length then
      (row.get? (x - reg.start_col)).getD 0
    else buf y x

/-- The whole fold-expression of `RenderAsync`'s `then`-continuation
(mandelbrot_renderer.hpp:58-72): regions are processed in index order, each
region's matrix written into the frame buffer; the buffer starts as the
all-zero grid produced by `resize` (mandelbrot_renderer.hpp:55). -/
def mergeAll (regions : List PixelRegion) (mats : List (List (List ℕ))) : ℕ → ℕ → ℕ :=
  (regions.zip mats).foldl (fun buf rm => writeMatrix buf rm.1 rm.2) fun _ _ => 0

/-- Materialise a pixel buffer into the `height × width` list-of-lists grid
that `RenderResult.pixel_data` holds. -/
def gridOf (height width : ℕ) (f : ℕ → ℕ → ℕ) : List (List ℕ) :=
  (List.range height).map fun y => (List.range width).map fun x => f y x

/-- The `when_all` fan-in over the per-region tasks
(mandelbrot_renderer.hpp:45-49): the continuation runs only when every task
succeeded; any task's failure fails the whole frame with that error. -/
def collectRegionResults :
    List (Except RenderError (List (List ℕ))) → Except RenderError (List (List (List ℕ)))
  | [] => Except.ok []
  | Except.error e :: _ => Except.error e
  | Except.ok m :: xs =>
    match collectRegionResults xs with
    | Except.error e => Except.error e
    | Except.ok ms => Except.ok (m :: ms)

/-- The `pixel_data` component of the `RenderResult` produced by
`MandelbrotRenderer::RenderAsync<N>` (mandelbrot_renderer.hpp:18-75):
partition the frame into `N` strips, compute each strip's matrix with
`ComputePixelMatrixForRegion`, join them through the `when_all` barrier
(failing the frame if any strip task failed), and merge the matrices into the
full-frame grid at each region's `(start_row, start_col)` offset. -/
def renderAsyncPixelData (viewport : mandelbrot.ViewPort) (settings : RenderSettings)
    (N : ℕ) : Except RenderError (List (List ℕ)) :=
  let regions := partitionRegions settings.height settings.width N
  match collectRegionResults (regions.map (ComputePixelMatrixForRegion viewport settings)) with
  | Except.error e => Except.error e
  | Except.ok mats => Except.ok (gridOf settings.height settings.width (mergeAll regions mats))

/-- The full-frame iteration grid computed pixel-by-pixel, with no
decomposition into strips: the reference result the parallel pipeline must
reproduce. -/
def directPixelData (viewport : mandelbrot.ViewPort) (settings : RenderSettings) :
    List (List ℕ) :=
  gridOf settings.height settings.width (directPixel viewport settings)

/-- `CalculateMandelbrotAsyncSender::OpState::start` (mandelbrot.hpp:32-53),
the render gate. The inner fan-out/fan-in computation is passed as `render`
(it may succeed with a `RenderResult` or raise, i.e. return an error). If
`need_rerender` is false the gate returns the empty sentinel at once without
consulting `render`; otherwise it runs `render`, and only on success clears
`need_rerender` before returning the populated result — a raise propagates
out before the flag assignment is reached. -/
def CalculateMandelbrotAsyncStart (state : AppState) (render_settings : RenderSettings)
    (render : mandelbrot.ViewPort → RenderSettings → Except RenderError RenderResult) :
    AppState × Except RenderError RenderResult :=
  if !state.need_rerender then
    (state, Except.ok ⟨state.viewport, render_settings, [], []⟩)
  else
    match render state.viewport render_settings with
    | Except.ok rr => ({ state with need_rerender := false }, Except.ok rr)
    | Except.error e => (state, Except.error e)

/-- Mouse buttons distinguished by `SfmlEventHandler::HandleEvents`
(sfml_events_handler.hpp:50-63): left, right, or any other button. -/
inductive MouseButton where
  | left
  | right
  | other
deriving DecidableEq, Repr

/-- The SFML events the handler's switch reacts to
(sfml_events_handler.hpp:45-67). -/
inductive SfmlEvent where
  | closed
  | mouseButtonPressed (button : MouseButton)
  | mouseButtonReleased (button : MouseButton)
  | otherEvent
deriving DecidableEq, Repr

/-- One iteration of the `pollEvent` loop of
`SfmlEventHandler::OperationState::HandleEvents` (sfml_events_handler.hpp:42-69). -/
def handleOneEvent (state : AppState) : SfmlEvent → AppState
  | SfmlEvent.closed => { state with should_exit := true }
  | SfmlEvent.mouseButtonPressed MouseButton.left =>
      { state with left_mouse_pressed := true, need_rerender := true }
  | SfmlEvent.mouseButtonPressed MouseButton.right =>
      { state with right_mouse_pressed := true, need_rerender := true }
  | SfmlEvent.mouseButtonPressed MouseButton.other => state
  | SfmlEvent.mouseButtonReleased MouseButton.left => { state with left_mouse_pressed := false }
  | SfmlEvent.mouseButtonReleased MouseButton.right => { state with right_mouse_pressed := false }
  | SfmlEvent.mouseButtonReleased MouseButton.other => state
  | SfmlEvent.otherEvent => state

/-- `HandleEvents` (sfml_events_handler.hpp:42-69): drain the polled event
queue, folding each event into the state in order. -/
def HandleEvents (state : AppState) (events : List SfmlEvent) : AppState :=
  events.foldl handleOneEvent state

/-- `ZoomToPoint` (sfml_events_handler.hpp:86-100): compute the complex
target under pixel `(pixel_x, pixel_y)`, scale the viewport span by `factor`
(zoom-in) or `1/factor` (zoom-out), and place the target at the centre of the
new viewport. The C++ default `factor = 0.8` is modelled as the exact
rational `4/5`. -/
def ZoomToPoint (viewport : mandelbrot.ViewPort) (screen_w screen_h : ℕ)
    (pixel_x pixel_y : ℤ) (zoom_in : Bool) (factor : ℚ) : mandelbrot.ViewPort :=
  let target_x := viewport.x_min + ((pixel_x : ℚ) / (screen_w : ℚ)) * viewport.width
  let target_y := viewport.y_min + ((pixel_y : ℚ) / (screen_h : ℚ)) * viewport.height
  let zoom_factor := if zoom_in then factor else 1 / factor
  let new_width := viewport.width * zoom_factor
  let new_height := viewport.height * zoom_factor
  ⟨target_x - new_width / 2, target_x + new_width / 2,
   target_y - new_height / 2, target_y + new_height / 2⟩

/-- `HandleContinuousZoom` (sfml_events_handler.hpp:71-84). The 100ms clock
test is modelled by the boolean `elapsed`; the queried mouse position by
`(mouse_x, mouse_y)` (C++ `int`s). When a zoom button is held, the interval
has elapsed and the pointer is inside the frame, one `ZoomToPoint` step is
applied with `zoom_in = state.left_mouse_pressed` and the default factor. -/
def HandleContinuousZoom (state : AppState) (render_settings : RenderSettings)
    (elapsed : Bool) (mouse_x mouse_y : ℤ) : AppState :=
  if (state.left_mouse_pressed || state.right_mouse_pressed) && elapsed then
    if 0 ≤ mouse_x ∧ mouse_x < (render_settings.width : ℤ) ∧
        0 ≤ mouse_y ∧ mouse_y < (render_settings.height : ℤ) then
      { state with
        viewport := ZoomToPoint state.viewport render_settings.width render_settings.height
          mouse_x mouse_y state.left_mouse_pressed (4 / 5) }
    else state
  else state

/-- `SfmlEventHandler::OperationState::start` (sfml_events_handler.hpp:28-39)
without its completion signalling: `HandleEvents()` then
`HandleContinuousZoom()`. -/
def SfmlEventHandlerStep (state : AppState) (render_settings : RenderSettings)
    (events : List SfmlEvent) (elapsed : Bool) (mouse_x mouse_y : ℤ) : AppState :=
  HandleContinuousZoom (HandleEvents state events) render_settings elapsed mouse_x mouse_y

/-- The viewport invariant of spec §3: `x_min < x_max` and `y_min < y_max`. -/
def mandelbrot.ViewPort.invariant (v : mandelbrot.ViewPort) : Prop :=
  v.x_min < v.x_max ∧ v.y_min < v.y_max

instance (v : mandelbrot.ViewPort) : Decidable v.invariant := by
  unfold mandelbrot.ViewPort.invariant
  infer_instance

/-! ## Lemmas about the partitioner -/

lemma stripLen_ge (height N i : ℕ) : height / N ≤ stripLen height N i := by
  simp [stripLen]

lemma stripLen_le (height N i : ℕ) : stripLen height N i ≤ height / N + 1 := by
  unfold stripLen
  split <;> omega

lemma currentRow_closed (height N : ℕ) :
    ∀ i, currentRow height N i = i * (height / N) + min i (height % N)
  | 0 => by simp [currentRow]
  | i + 1 => by
    rw [currentRow, currentRow_closed height N i, stripLen]
    rcases Nat.lt_or_ge i (height % N) with hi | hi
    · rw [if_pos hi]
      have : (i + 1) * (height / N) = i * (height / N) + height / N := by ring
      omega
    · rw [if_neg (Nat.not_lt.2 hi)]
      have : (i + 1) * (height / N) = i * (height / N) + height / N := by ring
      omega

lemma currentRow_mono (height N : ℕ) : Monotone (currentRow height N) := by
  apply monotone_nat_of_le_succ
  intro i
  simp [currentRow]

lemma currentRow_top (height N : ℕ) (hN : 0 < N) : currentRow height N N = height := by
  rw [currentRow_closed, Nat.min_eq_right (Nat.le_of_lt (Nat.mod_lt height hN))]
  exact Nat.div_add_mod height N

lemma exists_interval_idx (f : ℕ → ℕ) :
    ∀ (n r : ℕ), f 0 ≤ r → r < f n → ∃ i, i < n ∧ f i ≤ r ∧ r < f (i + 1) := by
  intro n
  induction n with
  | zero => intro r h0 hr; omega
  | succ k ih =>
    intro r h0 hr
    rcases Nat.lt_or_ge r (f k) with hk | hk
    · obtain ⟨i, hi, h1, h2⟩ := ih r h0 hk
      exact ⟨i, by omega, h1, h2⟩
    · exact ⟨k, by omega, hk, hr⟩

lemma partitionRegions_length (height width N : ℕ) :
    (partitionRegions height width N).length = N := by
  simp [partitionRegions]

lemma partitionRegions_get (height width N : ℕ) (i : ℕ)
    (hi : i < (partitionRegions height width N).length) :
    (partitionRegions height width N).get ⟨i, hi⟩ = partitionRegion height width N i := by
  simp [partitionRegions, partitionRegion]

/-- C1: for `height ≥ N ≥ 1` the partitioner yields `N` regions that are
contiguous and ordered, stay inside `[0, height)`, cover every row exactly
once, and whose row-span lengths pairwise differ by at most one. -/
theorem partition_strips_correct (height width N : ℕ) (hN : 1 ≤ N) (hNh : N ≤ height) :
    (partitionRegions height width N).length = N ∧
    (∀ i j : Fin (partitionRegions height width N).length, (i : ℕ) + 1 = (j : ℕ) →
      ((partitionRegions height width N).get i).end_row
        = ((partitionRegions height width N).get j).start_row) ∧
    (∀ i : Fin (partitionRegions height width N).length,
      ((partitionRegions height width N).get i).end_row ≤ height) ∧
    (∀ r, r < height → ∃! i : Fin (partitionRegions height width N).length,
      ((partitionRegions height width N).get i).start_row ≤ r ∧
        r < ((partitionRegions height width N).get i).end_row) ∧
    (∀ i j : Fin (partitionRegions height width N).length,
      ((partitionRegions height width N).get i).end_row
          - ((partitionRegions height width N).get i).start_row
        ≤ ((partitionRegions height width N).get j).end_row
          - ((partitionRegions height width N).get j).start_row + 1) := by
  have hlen := partitionRegions_length height width N
  refine ⟨hlen, ?_, ?_, ?_, ?_⟩
  · intro i j hij
    rcases i with ⟨i, hi⟩
    rcases j with ⟨j, hj⟩
    rw [partitionRegions_get, partitionRegions_get]
    simp only at hij
    subst hij
    show currentRow height N i + stripLen height N i = currentRow height N (i + 1)
    rfl
  · intro i
    rcases i with ⟨i, hi⟩
    rw [partitionRegions_get]
    show currentRow height N i + stripLen height N i ≤ height
    have h1 : currentRow height N (i + 1) ≤ currentRow height N N :=
      currentRow_mono height N (by omega : i + 1 ≤ N)
    rw [currentRow_top height N (by omega)] at h1
    exact h1
  · intro r hr
    have h0 : currentRow height N 0 ≤ r := by simp [currentRow]
    have hN' : r < currentRow height N N := by
      rw [currentRow_top height N (by omega)]
      exact hr
    obtain ⟨i, hiN, hle, hlt⟩ := exists_interval_idx (currentRow height N) N r h0 hN'
    refine ⟨⟨i, by omega⟩, ⟨?_, ?_⟩, ?_⟩
    · rw [partitionRegions_get]
      exact hle
    · rw [partitionRegions_get]
      exact hlt
    · intro j hj
      rcases j with ⟨j, hjlen⟩
      rw [partitionRegions_get] at hj
      have hjN : j < N := by omega
      have hj1 : currentRow height N j ≤ r := hj.1
      have hj2 : r < currentRow height N (j + 1) := hj.2
      have : j = i := by
        by_contra hne
        rcases Nat.lt_or_ge j i with hlt2 | hge
        · have : currentRow height N (j + 1) ≤ currentRow height N i :=
            currentRow_mono height N (by omega)
          omega
        · have hlt3 : i < j := by omega
          have : currentRow height N (i + 1) ≤ currentRow height N j :=
            currentRow_mono height N (by omega)
          omega
      simp [this]
  · intro i j
    rcases i with ⟨i, hi⟩
    rcases j with ⟨j, hj⟩
    rw [partitionRegions_get, partitionRegions_get]
    show currentRow height N i + stripLen height N i - currentRow height N i
      ≤ currentRow height N j + stripLen height N j - currentRow height N j + 1
    have h1 := stripLen_le height N i
    have h2 := stripLen_ge height N j
    omega

/-- Witness for C1 at `height = 10`, `width = 7`, `N = 3`. -/
theorem partition_strips_correct_witness :
    1 ≤ 3 ∧ 3 ≤ 10 ∧ (partitionRegions 10 7 3).length = 3 :=
  ⟨by decide, by decide, (partition_strips_correct 10 7 3 (by decide) (by decide)).1⟩

/-! ## Lemmas about the merge -/

lemma computeRegionRows_length (vp : mandelbrot.ViewPort) (s : RenderSettings)
    (start_r n : ℕ) : (computeRegionRows vp s start_r n).length = n := by
  simp [computeRegionRows]

lemma computeRegionRows_row (vp : mandelbrot.ViewPort) (s : RenderSettings)
    (start_r n k : ℕ) (hk : k < n) :
    (computeRegionRows vp s start_r n).get? k
      = some ((List.range s.width).map fun c => directPixel vp s (start_r + k) c) := by
  unfold computeRegionRows
  rw [List.get?_eq_getElem?, List.getElem?_map, List.getElem?_range hk]
  rfl

lemma computeMatrix_ok (vp : mandelbrot.ViewPort) (s : RenderSettings) (reg : PixelRegion)
    (h1 : reg.start_row ≤ reg.end_row) (h2 : reg.end_row ≤ s.height) :
    ComputePixelMatrixForRegion vp s reg
      = Except.ok (computeRegionRows vp s reg.start_row (reg.end_row - reg.start_row)) := by
  simp only [ComputePixelMatrixForRegion]
  rw [Nat.min_eq_left (le_trans h1 h2), Nat.min_eq_left h2, if_neg (by omega)]

lemma writeMatrix_compute (vp : mandelbrot.ViewPort) (s : RenderSettings) (reg : PixelRegion)
    (buf : ℕ → ℕ → ℕ) (h0 : reg.start_col = 0) (y x : ℕ) :
    writeMatrix buf reg (computeRegionRows vp s reg.start_row (reg.end_row - reg.start_row))
        y x =
      if reg.start_row ≤ y ∧ y < reg.end_row ∧ x < s.width then directPixel vp s y x
      else buf y x := by
  have hml := computeRegionRows_length vp s reg.start_row (reg.end_row - reg.start_row)
  have hrowlen : ∀ hk : y - reg.start_row < reg.end_row - reg.start_row,
      (((computeRegionRows vp s reg.start_row (reg.end_row - reg.start_row)).get?
          (y - reg.start_row)).getD []).length = s.width := by
    intro hk
    rw [computeRegionRows_row vp s reg.start_row (reg.end_row - reg.start_row)
      (y - reg.start_row) hk]
    simp
  have hiff : (reg.start_row ≤ y ∧
      y - reg.start_row
        < (computeRegionRows vp s reg.start_row (reg.end_row - reg.start_row)).length ∧
      reg.start_col ≤ x ∧
      x - reg.start_col <
        (((computeRegionRows vp s reg.start_row (reg.end_row - reg.start_row)).get?
            (y - reg.start_row)).getD []).length) ↔
      (reg.start_row ≤ y ∧ y < reg.end_row ∧ x < s.width) := by
    constructor
    · rintro ⟨hc1, hc2, hc3, hc4⟩
      rw [hml] at hc2
      rw [hrowlen (by omega)] at hc4
      rw [h0] at hc4
      exact ⟨hc1, by omega, by omega⟩
    · rintro ⟨hc1, hc2, hc3⟩
      rw [hml, hrowlen (by omega), h0]
      exact ⟨hc1, by omega, by omega, by omega⟩
  simp only [writeMatrix]
  rw [if_congr hiff rfl rfl]
  by_cases hy : reg.start_row ≤ y ∧ y < reg.end_row ∧ x < s.width
  · rw [if_pos hy, if_pos hy]
    rw [computeRegionRows_row vp s reg.start_row (reg.end_row - reg.start_row)
      (y - reg.start_row) (by omega)]
    have hyy : reg.start_row + (y - reg.start_row) = y := by omega
    rw [hyy, h0]
    simp only [Option.getD_some, List.get?_eq_getElem?, List.getElem?_map,
      List.getElem?_range (by omega : x - 0 < s.width)]
    simp
  · rw [if_neg hy, if_neg hy]

lemma collectRegionResults_cons_ok (m : List (List ℕ))
    (xs : List (Except RenderError (List (List ℕ)))) :
    collectRegionResults (Except.ok m :: xs)
      = match collectRegionResults xs with
        | Except.error e => Except.error e
        | Except.ok ms => Except.ok (m :: ms) := rfl

lemma collectRegionResults_ok (vp : mandelbrot.ViewPort) (s : RenderSettings)
    (regs : List PixelRegion)
    (hg : ∀ reg ∈ regs, reg.start_row ≤ reg.end_row ∧ reg.end_row ≤ s.height ∧
      reg.start_col = 0) :
    collectRegionResults (regs.map (ComputePixelMatrixForRegion vp s))
      = Except.ok (regs.map fun reg =>
          computeRegionRows vp s reg.start_row (reg.end_row - reg.start_row)) := by
  induction regs with
  | nil => rfl
  | cons r rs ih =>
    obtain ⟨hr1, hr2, hr3⟩ := hg r (List.mem_cons_self r rs)
    simp only [List.map_cons]
    rw [computeMatrix_ok vp s r hr1 hr2, collectRegionResults_cons_ok,
      ih (fun reg hreg => hg reg (List.mem_cons_of_mem r hreg))]

lemma mergeAll_go (vp : mandelbrot.ViewPort) (s : RenderSettings) (regs : List PixelRegion)
    (hg : ∀ reg ∈ regs, reg.start_row ≤ reg.end_row ∧ reg.end_row ≤ s.height ∧
      reg.start_col = 0)
    (init : ℕ → ℕ → ℕ) (y x : ℕ) (hx : x < s.width) :
    ((regs.zip (regs.map fun reg =>
        computeRegionRows vp s reg.start_row (reg.end_row - reg.start_row))).foldl
        (fun buf rm => writeMatrix buf rm.1 rm.2) init) y x
      = if ∃ reg ∈ regs, reg.start_row ≤ y ∧ y < reg.end_row then directPixel vp s y x
        else init y x := by
  induction regs generalizing init with
  | nil => simp
  | cons r rs ih =>
    simp only [List.map_cons, List.zip_cons_cons, List.foldl_cons]
    obtain ⟨hr1, hr2, hr3⟩ := hg r (List.mem_cons_self r rs)
    rw [ih (fun reg hreg => hg reg (List.mem_cons_of_mem r hreg))]
    by_cases hcov : ∃ reg ∈ rs, reg.start_row ≤ y ∧ y < reg.end_row
    · rw [if_pos hcov]
      obtain ⟨reg, hreg, hspan⟩ := hcov
      rw [if_pos ⟨reg, List.mem_cons_of_mem r hreg, hspan⟩]
    · rw [if_neg hcov]
      rw [writeMatrix_compute vp s r init hr3 y x]
      by_cases hr : r.start_row ≤ y ∧ y < r.end_row
      · rw [if_pos ⟨hr.1, hr.2, hx⟩, if_pos ⟨r, List.mem_cons_self r rs, hr⟩]
      · rw [if_neg (by tauto), if_neg ?_]
        rintro ⟨reg, hreg, hspan⟩
        rcases List.mem_cons.1 hreg with rfl | hmem
        · exact hr hspan
        · exact hcov ⟨reg, hmem, hspan⟩

lemma partitionRegions_good (height width N : ℕ) (hN : 1 ≤ N) :
    ∀ reg ∈ partitionRegions height width N,
      reg.start_row ≤ reg.end_row ∧ reg.end_row ≤ height ∧ reg.start_col = 0 := by
  intro reg hreg
  simp only [partitionRegions, List.mem_map, List.mem_range] at hreg
  obtain ⟨i, hi, rfl⟩ := hreg
  refine ⟨Nat.le_add_right _ _, ?_, rfl⟩
  have h1 : currentRow height N (i + 1) ≤ currentRow height N N :=
    currentRow_mono height N (by omega)
  rw [currentRow_top height N (by omega)] at h1
  exact h1

lemma partitionRegions_cover (height width N : ℕ) (hN : 1 ≤ N) (y : ℕ) (hy : y < height) :
    ∃ reg ∈ partitionRegions height width N, reg.start_row ≤ y ∧ y < reg.end_row := by
  obtain ⟨i, hiN, h1, h2⟩ := exists_interval_idx (currentRow height N) N y
    (by simp [currentRow]) (by rw [currentRow_top height N (by omega)]; exact hy)
  refine ⟨partitionRegion height width N i, ?_, h1, h2⟩
  simp only [partitionRegions, partitionRegion, List.mem_map, List.mem_range]
  exact ⟨i, hiN, rfl⟩

lemma renderAsync_eq_direct (vp : mandelbrot.ViewPort) (s : RenderSettings) (N : ℕ)
    (hN : 1 ≤ N) : renderAsyncPixelData vp s N = Except.ok (directPixelData vp s) := by
  simp only [renderAsyncPixelData]
  rw [collectRegionResults_ok vp s (partitionRegions s.height s.width N)
    (partitionRegions_good s.height s.width N hN)]
  refine congrArg Except.ok ?_
  simp only [directPixelData, gridOf, mergeAll]
  apply List.map_congr_left
  intro y hy
  rw [List.mem_range] at hy
  apply List.map_congr_left
  intro x hx
  rw [List.mem_range] at hx
  rw [mergeAll_go vp s (partitionRegions s.height s.width N)
    (partitionRegions_good s.height s.width N hN) _ y x hx]
  rw [if_pos (partitionRegions_cover s.height s.width N hN y hy)]

/-- C4: the parallel decomposition does not change the computed frame — for
any viewport and settings the fan-out over 1 strip and over 4 strips produce
the same `pixel_data` outcome (both reduce to the direct pixel-by-pixel
grid). -/
theorem render_partition_invariance (vp : mandelbrot.ViewPort) (s : RenderSettings) :
    renderAsyncPixelData vp s 1 = renderAsyncPixelData vp s 4 := by
  rw [renderAsync_eq_direct vp s 1 (by omega), renderAsync_eq_direct vp s 4 (by omega)]

/-! ## The render gate -/

/-- C2: with `need_rerender = false` the gate returns the empty sentinel
carrying the current viewport and settings, consults the computation not at
all, leaves the state (hence `need_rerender`) unchanged, and a repeated call
returns the same sentinel. -/
theorem render_gate_idle (state : AppState) (rs : RenderSettings)
    (render render2 : mandelbrot.ViewPort → RenderSettings → Except RenderError RenderResult)
    (h : state.need_rerender = false) :
    CalculateMandelbrotAsyncStart state rs render
        = (state, Except.ok ⟨state.viewport, rs, [], []⟩) ∧
      CalculateMandelbrotAsyncStart (CalculateMandelbrotAsyncStart state rs render).1 rs render2
        = (state, Except.ok ⟨state.viewport, rs, [], []⟩) := by
  have h1 : CalculateMandelbrotAsyncStart state rs render
      = (state, Except.ok ⟨state.viewport, rs, [], []⟩) := by
    unfold CalculateMandelbrotAsyncStart
    rw [h]
    rfl
  have h2 : CalculateMandelbrotAsyncStart state rs render2
      = (state, Except.ok ⟨state.viewport, rs, [], []⟩) := by
    unfold CalculateMandelbrotAsyncStart
    rw [h]
    rfl
  refine ⟨h1, ?_⟩
  rw [h1]
  exact h2

/-- Witness for C2 at a concrete idle state. -/
theorem render_gate_idle_witness :
    CalculateMandelbrotAsyncStart ⟨⟨-2, 1, -1, 1⟩, false, false, false, false⟩
        ⟨64, 48, 64, 2⟩ (fun _ _ => Except.error RenderError.exn)
      = (⟨⟨-2, 1, -1, 1⟩, false, false, false, false⟩,
         Except.ok ⟨⟨-2, 1, -1, 1⟩, ⟨64, 48, 64, 2⟩, [], []⟩) :=
  (render_gate_idle ⟨⟨-2, 1, -1, 1⟩, false, false, false, false⟩ ⟨64, 48, 64, 2⟩
    (fun _ _ => Except.error RenderError.exn) (fun _ _ => Except.error RenderError.exn) rfl).1

/-- C3: with `need_rerender = true` the gate runs the computation; on success
it clears the flag and returns the populated result, on failure it propagates
the error and leaves the state — in particular `need_rerender` — untouched. -/
theorem render_gate_dirty (state : AppState) (rs : RenderSettings)
    (render : mandelbrot.ViewPort → RenderSettings → Except RenderError RenderResult)
    (h : state.need_rerender = true) :
    (∀ rr, render state.viewport rs = Except.ok rr →
      CalculateMandelbrotAsyncStart state rs render
        = ({ state with need_rerender := false }, Except.ok rr)) ∧
    (∀ e, render state.viewport rs = Except.error e →
      CalculateMandelbrotAsyncStart state rs render = (state, Except.error e)) := by
  constructor
  · intro rr hrr
    unfold CalculateMandelbrotAsyncStart
    rw [h]
    simp [hrr]
  · intro e he
    unfold CalculateMandelbrotAsyncStart
    rw [h]
    simp [he]

/-- Witness for C3 at a concrete dirty state, for both outcomes. -/
theorem render_gate_dirty_witness :
    CalculateMandelbrotAsyncStart ⟨⟨-2, 1, -1, 1⟩, true, false, false, false⟩ ⟨4, 4, 8, 2⟩
        (fun _ _ => Except.ok ⟨⟨-2, 1, -1, 1⟩, ⟨4, 4, 8, 2⟩, [[1]], []⟩)
      = (⟨⟨-2, 1, -1, 1⟩, false, false, false, false⟩,
         Except.ok ⟨⟨-2, 1, -1, 1⟩, ⟨4, 4, 8, 2⟩, [[1]], []⟩) ∧
    CalculateMandelbrotAsyncStart ⟨⟨-2, 1, -1, 1⟩, true, false, false, false⟩ ⟨4, 4, 8, 2⟩
        (fun _ _ => Except.error RenderError.exn)
      = (⟨⟨-2, 1, -1, 1⟩, true, false, false, false⟩, Except.error RenderError.exn) :=
  ⟨(render_gate_dirty ⟨⟨-2, 1, -1, 1⟩, true, false, false, false⟩ ⟨4, 4, 8, 2⟩
      (fun _ _ => Except.ok ⟨⟨-2, 1, -1, 1⟩, ⟨4, 4, 8, 2⟩, [[1]], []⟩) rfl).1
      ⟨⟨-2, 1, -1, 1⟩, ⟨4, 4, 8, 2⟩, [[1]], []⟩ rfl,
   (render_gate_dirty ⟨⟨-2, 1, -1, 1⟩, true, false, false, false⟩ ⟨4, 4, 8, 2⟩
      (fun _ _ => Except.error RenderError.exn) rfl).2 RenderError.exn rfl⟩

/-! ## The escape-time evaluator -/

lemma iterLoop_zero (r2 : ℚ) (h : 0 ≤ r2) :
    ∀ fuel acc, mandelbrot.iterLoop ⟨0, 0⟩ r2 fuel ⟨0, 0⟩ acc = acc + fuel := by
  intro fuel
  induction fuel with
  | zero => intro acc; rfl
  | succ k ih =>
    intro acc
    rw [mandelbrot.iterLoop]
    rw [if_neg (by push_neg; norm_num; exact h)]
    norm_num
    rw [ih (acc + 1)]
    omega

/-- C6: the escape-time evaluator at the origin `c = 0` never escapes and
returns exactly `max_iterations`, for any positive iteration cap and escape
radius. -/
theorem iterations_origin_bounded (max_iterations : ℕ) (escape_radius : ℚ)
    (hm : 0 < max_iterations) (hr : 0 < escape_radius) :
    mandelbrot.CalculateIterationsForPoint ⟨0, 0⟩ max_iterations escape_radius
      = max_iterations := by
  unfold mandelbrot.CalculateIterationsForPoint
  rw [iterLoop_zero (escape_radius * escape_radius) (by positivity) max_iterations 0]
  omega

/-- Witness for C6 at `max_iterations = 5`, `escape_radius = 2`. -/
theorem iterations_origin_bounded_witness :
    0 < 5 ∧ (0 : ℚ) < 2 ∧ mandelbrot.CalculateIterationsForPoint ⟨0, 0⟩ 5 2 = 5 :=
  ⟨by decide, by norm_num, iterations_origin_bounded 5 2 (by decide) (by norm_num)⟩

/-! ## Shape of the per-region computation -/

/-- C8 counterexample: the claim asserts the computation is total for every
region, but a reversed region — `{start_row = 9, end_row = 2}` on a 4-row
screen — makes the clamped `uint32` difference `end_r - start_r` wrap to
nearly `2^32`, so the `resize` fails and the task reports the error outcome
instead of returning a matrix. -/
theorem compute_region_wrap_counterexample :
    ComputePixelMatrixForRegion ⟨-2, 1, -1, 1⟩ ⟨6, 4, 8, 2⟩ ⟨9, 2, 0, 6⟩
      = Except.error RenderError.exn := rfl

/-- C8 amended: for every region whose row range is well-ordered
(`start_row ≤ end_row`) — including every region extending past the screen
height — the computation succeeds with a matrix of exactly
`min end_row height - min start_row height` rows, each of the full screen
width, and a region lying entirely at or past the screen height yields the
empty matrix; only reversed regions make the wrapped `resize` fail. -/
theorem compute_region_clamps (vp : mandelbrot.ViewPort) (s : RenderSettings)
    (reg : PixelRegion) (hreg : reg.start_row ≤ reg.end_row) :
    ∃ mat, ComputePixelMatrixForRegion vp s reg = Except.ok mat ∧
      mat.length = min reg.end_row s.height - min reg.start_row s.height ∧
      mat.map List.length
        = List.replicate (min reg.end_row s.height - min reg.start_row s.height) s.width ∧
      (s.height ≤ reg.start_row → mat = []) := by
  refine ⟨computeRegionRows vp s (min reg.start_row s.height)
    (min reg.end_row s.height - min reg.start_row s.height), ?_, ?_, ?_, ?_⟩
  · simp only [ComputePixelMatrixForRegion]
    rw [if_neg (by omega)]
  · exact computeRegionRows_length vp s _ _
  · simp [computeRegionRows, List.map_map, Function.comp_def]
  · intro hge
    have hn : min reg.end_row s.height - min reg.start_row s.height = 0 := by omega
    rw [hn]
    rfl

/-- Witness for C8 at a well-ordered region entirely past a 4-row screen. -/
theorem compute_region_clamps_witness :
    9 ≤ 11 ∧
    ∃ mat, ComputePixelMatrixForRegion ⟨-2, 1, -1, 1⟩ ⟨6, 4, 8, 2⟩ ⟨9, 11, 0, 6⟩
        = Except.ok mat ∧
      mat.length = min 11 4 - min 9 4 ∧
      mat.map List.length = List.replicate (min 11 4 - min 9 4) 6 ∧
      (4 ≤ 9 → mat = []) :=
  ⟨by decide, compute_region_clamps ⟨-2, 1, -1, 1⟩ ⟨6, 4, 8, 2⟩ ⟨9, 11, 0, 6⟩ (by decide)⟩

/-- C10: the per-region computation never reads `start_col`/`end_col`: its
outcome is unchanged under any column range, and whenever it returns a
matrix, every row of that matrix is computed over columns `[0, width)` at
full screen width. -/
theorem compute_region_ignores_cols (vp : mandelbrot.ViewPort) (s : RenderSettings)
    (r1 r2 c1 c2 c1' c2' : ℕ) :
    ComputePixelMatrixForRegion vp s ⟨r1, r2, c1, c2⟩
        = ComputePixelMatrixForRegion vp s ⟨r1, r2, c1', c2'⟩ ∧
    (∀ mat, ComputePixelMatrixForRegion vp s ⟨r1, r2, c1, c2⟩ = Except.ok mat →
      mat = (List.range (min r2 s.height - min r1 s.height)).map fun i =>
        (List.range s.width).map fun j => directPixel vp s (min r1 s.height + i) j) := by
  refine ⟨rfl, ?_⟩
  intro mat hmat
  simp only [ComputePixelMatrixForRegion] at hmat
  split at hmat
  · simp at hmat
  · injection hmat with hmat
    rw [← hmat]
    rfl

/-- Witness for C10 at a zero-width screen, where the returned rows are
concretely computable. -/
theorem compute_region_ignores_cols_witness :
    ([[], []] : List (List ℕ))
      = (List.range (min 3 4 - min 1 4)).map fun i =>
          (List.range 0).map fun j => directPixel ⟨-2, 1, -1, 1⟩ ⟨0, 4, 8, 2⟩ (min 1 4 + i) j :=
  (compute_region_ignores_cols ⟨-2, 1, -1, 1⟩ ⟨0, 4, 8, 2⟩ 1 3 0 0 5 6).2 [[], []] rfl

/-! ## The zoom controller -/

/-- C5 counterexample: zooming in at pixel `(0,0)` of a `100×100` frame over
the unit viewport moves that pixel's complex coordinate from `0` to `-2/5` —
the code centres the viewport on the target instead of keeping it under the
pointer. -/
theorem zoom_fixed_point_counterexample :
    ¬ (mandelbrot.Pixel2DToComplex 0 0 (ZoomToPoint ⟨0, 1, 0, 1⟩ 100 100 0 0 true (4 / 5))
          100 100
        = mandelbrot.Pixel2DToComplex 0 0 ⟨0, 1, 0, 1⟩ 100 100) := by
  simp only [mandelbrot.Pixel2DToComplex, ZoomToPoint, mandelbrot.ViewPort.width,
    mandelbrot.ViewPort.height, mandelbrot.Complex.mk.injEq]
  norm_num

/-- C5 amended: each zoom step scales the viewport span by `4/5` (zoom-in) or
`5/4` (zoom-out) and places the complex point under the pointer at the centre
of the new viewport (so only the centre pixel keeps its coordinate). -/
theorem zoom_scales_and_centers (vp : mandelbrot.ViewPort) (sw sh : ℕ) (px py : ℤ) :
    (ZoomToPoint vp sw sh px py true (4 / 5)).width = 4 / 5 * vp.width ∧
    (ZoomToPoint vp sw sh px py true (4 / 5)).height = 4 / 5 * vp.height ∧
    (ZoomToPoint vp sw sh px py false (4 / 5)).width = 5 / 4 * vp.width ∧
    (ZoomToPoint vp sw sh px py false (4 / 5)).height = 5 / 4 * vp.height ∧
    (ZoomToPoint vp sw sh px py true (4 / 5)).x_min
        + (ZoomToPoint vp sw sh px py true (4 / 5)).x_max
      = 2 * (vp.x_min + ((px : ℚ) / (sw : ℚ)) * vp.width) ∧
    (ZoomToPoint vp sw sh px py true (4 / 5)).y_min
        + (ZoomToPoint vp sw sh px py true (4 / 5)).y_max
      = 2 * (vp.y_min + ((py : ℚ) / (sh : ℚ)) * vp.height) ∧
    (ZoomToPoint vp sw sh px py false (4 / 5)).x_min
        + (ZoomToPoint vp sw sh px py false (4 / 5)).x_max
      = 2 * (vp.x_min + ((px : ℚ) / (sw : ℚ)) * vp.width) ∧
    (ZoomToPoint vp sw sh px py false (4 / 5)).y_min
        + (ZoomToPoint vp sw sh px py false (4 / 5)).y_max
      = 2 * (vp.y_min + ((py : ℚ) / (sh : ℚ)) * vp.height) := by
  refine ⟨?_, ?_, ?_, ?_, ?_, ?_, ?_, ?_⟩ <;>
    simp only [ZoomToPoint, mandelbrot.ViewPort.width, mandelbrot.ViewPort.height,
      if_true, if_false] <;>
    norm_num <;> ring

/-- `HandleEvents` only touches the boolean flags, never the viewport. -/
lemma handleEvents_viewport (events : List SfmlEvent) :
    ∀ state : AppState, (HandleEvents state events).viewport = state.viewport := by
  induction events with
  | nil => intro state; rfl
  | cons e rest ih =>
    intro state
    rw [HandleEvents, List.foldl_cons]
    have h1 := ih (handleOneEvent state e)
    rw [HandleEvents] at h1
    rw [h1]
    cases e with
    | closed => rfl
    | mouseButtonPressed b => cases b <;> rfl
    | mouseButtonReleased b => cases b <;> rfl
    | otherEvent => rfl

/-- A `ZoomToPoint` step with the source's factor `0.8` keeps the viewport
invariant. -/
lemma zoomToPoint_invariant (vp : mandelbrot.ViewPort) (sw sh : ℕ) (px py : ℤ)
    (zoom_in : Bool) (h : vp.invariant) :
    (ZoomToPoint vp sw sh px py zoom_in (4 / 5)).invariant := by
  obtain ⟨hx, hy⟩ := h
  have hw : 0 < vp.width := by
    unfold mandelbrot.ViewPort.width
    linarith
  have hh : 0 < vp.height := by
    unfold mandelbrot.ViewPort.height
    linarith
  have hzf : (0 : ℚ) < if zoom_in then (4 / 5 : ℚ) else 1 / (4 / 5) := by
    cases zoom_in <;> norm_num
  constructor <;>
    simp only [ZoomToPoint, mandelbrot.ViewPort.invariant] <;>
    nlinarith [mul_pos hw hzf, mul_pos hh hzf]

/-- The render gate never changes the viewport. -/
lemma gate_viewport (state : AppState) (rs : RenderSettings)
    (render : mandelbrot.ViewPort → RenderSettings → Except RenderError RenderResult) :
    (CalculateMandelbrotAsyncStart state rs render).1.viewport = state.viewport := by
  unfold CalculateMandelbrotAsyncStart
  by_cases h : state.need_rerender
  · rw [h]
    simp only [Bool.not_true, Bool.false_eq_true, if_false]
    cases render state.viewport rs <;> rfl
  · rw [Bool.not_eq_true] at h
    rw [h]
    rfl

/-- C7: the viewport invariant `x_min < x_max ∧ y_min < y_max` is preserved by
the event-handling step (events plus continuous zoom), and the render gate —
the only other holder of the state — never mutates the viewport at all. -/
theorem viewport_invariant_preserved (state : AppState) (rs : RenderSettings)
    (events : List SfmlEvent) (elapsed : Bool) (mx my : ℤ)
    (render : mandelbrot.ViewPort → RenderSettings → Except RenderError RenderResult)
    (h : state.viewport.invariant) :
    (SfmlEventHandlerStep state rs events elapsed mx my).viewport.invariant ∧
    (CalculateMandelbrotAsyncStart state rs render).1.viewport = state.viewport := by
  refine ⟨?_, gate_viewport state rs render⟩
  unfold SfmlEventHandlerStep HandleContinuousZoom
  have hev : (HandleEvents state events).viewport = state.viewport :=
    handleEvents_viewport events state
  split
  · split
    · simp only
      exact zoomToPoint_invariant _ rs.width rs.height mx my _ (by rw [hev]; exact h)
    · rw [hev]; exact h
  · rw [hev]; exact h

/-- Witness for C7 at a concrete state with an active zoom tick. -/
theorem viewport_invariant_preserved_witness :
    (SfmlEventHandlerStep ⟨⟨-2, 1, -1, 1⟩, false, true, false, false⟩ ⟨10, 10, 8, 2⟩
        [] true 3 4).viewport.invariant ∧
    (CalculateMandelbrotAsyncStart ⟨⟨-2, 1, -1, 1⟩, false, true, false, false⟩ ⟨10, 10, 8, 2⟩
        (fun _ _ => Except.error RenderError.exn)).1.viewport = ⟨-2, 1, -1, 1⟩ :=
  viewport_invariant_preserved ⟨⟨-2, 1, -1, 1⟩, false, true, false, false⟩ ⟨10, 10, 8, 2⟩
    [] true 3 4 (fun _ _ => Except.error RenderError.exn) (by decide)

/-- C9: when both zoom buttons are held during a tick with the pointer in
frame, the handler applies exactly one zoom step, and it is a zoom-in step
(`zoom_in = left_mouse_pressed = true`, factor `0.8`). -/
theorem both_buttons_zoom_in (state : AppState) (rs : RenderSettings) (mx my : ℤ)
    (hl : state.left_mouse_pressed = true) (hr : state.right_mouse_pressed = true)
    (hb : 0 ≤ mx ∧ mx < (rs.width : ℤ) ∧ 0 ≤ my ∧ my < (rs.height : ℤ)) :
    HandleContinuousZoom state rs true mx my
      = { state with
          viewport := ZoomToPoint state.viewport rs.width rs.height mx my true (4 / 5) } := by
  unfold HandleContinuousZoom
  rw [hl]
  simp [hb]

/-- Witness for C9: both buttons held, pointer at `(3,4)` in a `10×10` frame. -/
theorem both_buttons_zoom_in_witness :
    HandleContinuousZoom ⟨⟨-2, 1, -1, 1⟩, false, true, true, false⟩ ⟨10, 10, 8, 2⟩ true 3 4
      = ⟨ZoomToPoint ⟨-2, 1, -1, 1⟩ 10 10 3 4 true (4 / 5), false, true, true, false⟩ :=
  both_buttons_zoom_in ⟨⟨-2, 1, -1, 1⟩, false, true, true, false⟩ ⟨10, 10, 8, 2⟩ 3 4
    rfl rfl (by decide)
